import Mathlib

/-!
Verification of the QR generator service (src/main.rs) against its
specification.  The Rust source is shallowly embedded below: each Rust
function that the claims mention is translated into a Lean definition of
the same name (where Lean allows it).  Machine integers (u8, u32) are
modelled as Nat; Rust strings are modelled at the byte level (List Nat of
UTF-8 bytes) where the source does byte slicing; f32/f64 arithmetic is
idealized as exact rational arithmetic, and every concrete instance used
in a theorem is chosen so that the true floating-point rounding error
(far below 1e-3 on these magnitudes) cannot move the value across the
integer boundary the theorem depends on.  The black-box QR symbol encoder
(the qr_code_to macro from the qrc crate) and the network fetch/decode
and Lanczos resampling of the image crate are modelled as oracle
parameters; only their dimension behaviour, which is deterministic
arithmetic in the image crate, is embedded concretely.
-/

namespace QRGen

/-- An RGBA pixel; channels are u8 values modelled as Nat. -/
structure Rgba where
  r : Nat
  g : Nat
  b : Nat
  a : Nat
deriving DecidableEq

/-- Outcome of hex_to_rgba: the Rust function either panics (byte slicing
at a non-character boundary), returns Err, or returns Ok of a color. -/
inductive HexResult where
  | panicked
  | err
  | ok (c : Rgba)
deriving DecidableEq

/-- Value of an ASCII byte as a base-16 digit, as used by
u8::from_str_radix: 0-9, a-f, A-F; anything else is not a digit. -/
def hexDigitVal (b : Nat) : Option Nat :=
  if 48 ≤ b ∧ b ≤ 57 then some (b - 48)
  else if 97 ≤ b ∧ b ≤ 102 then some (b - 87)
  else if 65 ≤ b ∧ b ≤ 70 then some (b - 55)
  else none

/-- Model of u8::from_str_radix(s, 16) on the bytes of s.  Rust accepts
an optional leading plus sign (byte 43) for unsigned integers, then
requires one or more base-16 digits; a minus sign is not a valid digit
for u8, an empty digit string is an error, and a value above 255
overflows to an error. -/
def fromStrRadix16 (s : List Nat) : Option Nat :=
  let digits := match s with
    | 43 :: rest => rest
    | _ => s
  if digits.isEmpty then none
  else digits.foldl
    (fun acc b => match acc, hexDigitVal b with
      | some v, some d => if 16 * v + d ≤ 255 then some (16 * v + d) else none
      | _, _ => none)
    (some 0)

/-- Rust str::is_char_boundary on a byte sequence: the index equals the
length, or the byte at the index is not a UTF-8 continuation byte
(i.e. it is below 128 or at least 192). -/
def isCharBoundary (bytes : List Nat) (i : Nat) : Bool :=
  if i = bytes.length then true
  else match bytes.get? i with
    | some b => decide (b < 128 ∨ 192 ≤ b)
    | none => false

/-- Rust byte-range string slicing s[a..b]: returns the byte sub-range
when both ends are in range and on character boundaries, and panics
(modelled as none) otherwise. -/
def strSlice (bytes : List Nat) (lo hi : Nat) : Option (List Nat) :=
  if lo ≤ hi ∧ hi ≤ bytes.length ∧ isCharBoundary bytes lo ∧ isCharBoundary bytes hi then
    some ((bytes.drop lo).take (hi - lo))
  else none

/-- Embedding of hex_to_rgba (src/main.rs lines 48-58) on the UTF-8 bytes
of the input string.  The Rust code first checks hex.len() != 7 (byte
length) and hex.starts_with(the hash character, byte 35), then slices
hex[1..3], hex[3..5], hex[5..7] in that order, parsing each with
u8::from_str_radix(_, 16) and returning early on the first Err.  A slice
whose end falls inside a multi-byte character panics. -/
def hex_to_rgba (hex : List Nat) : HexResult :=
  if hex.length ≠ 7 ∨ hex.head? ≠ some 35 then HexResult.err
  else match strSlice hex 1 3 with
    | none => HexResult.panicked
    | some s1 => match fromStrRadix16 s1 with
      | none => HexResult.err
      | some r => match strSlice hex 3 5 with
        | none => HexResult.panicked
        | some s2 => match fromStrRadix16 s2 with
          | none => HexResult.err
          | some g => match strSlice hex 5 7 with
            | none => HexResult.panicked
            | some s3 => match fromStrRadix16 s3 with
              | none => HexResult.err
              | some b => HexResult.ok ⟨r, g, b, 255⟩

/-- Embedding of calculate_safe_zone (src/main.rs lines 60-68): the
centered square of side qr_size / 4, as (start_x, start_y, width, height).
u32 arithmetic never wraps here, so Nat translates it exactly. -/
def calculate_safe_zone (qr_size : Nat) : Nat × Nat × Nat × Nat :=
  let safe_size := qr_size / 4
  let start_x := (qr_size - safe_size) / 2
  let start_y := (qr_size - safe_size) / 2
  (start_x, start_y, safe_size, safe_size)

/-- A size-by-size RGBA pixel buffer, viewed through its pixel lookup;
only coordinates in the square of the current size are ever observed. -/
abbrev Image := Nat → Nat → Rgba

/-- RgbaImage::new(size, size): every pixel zeroed, i.e. fully
transparent black.  This is the buffer the code falls back to when
ImageBuffer::from_raw rejects the encoder output. -/
def blankImage : Image := fun _ _ => ⟨0, 0, 0, 0⟩

/-- Minimal byte length the image crate requires of a raw RGBA buffer of
dimensions size by size: size * size * 4. -/
def image_buffer_len (size : Nat) : Nat := size * size * 4

/-- Pixel (x, y) of a raw row-major RGBA byte buffer. -/
def pixelAt (data : List Nat) (size x y : Nat) : Rgba :=
  let i := (y * size + x) * 4
  ⟨data.getD i 0, data.getD (i + 1) 0, data.getD (i + 2) 0, data.getD (i + 3) 0⟩

/-- Embedding of ImageBuffer::from_raw(size, size, data) for Rgba u8
pixels: the image crate accepts the container when its length is at
least size * size * 4 (check_image_fits compares min_len <= len) and
returns None only when the buffer is too short. -/
def from_raw (size : Nat) (data : List Nat) : Option Image :=
  if image_buffer_len size ≤ data.length then some (pixelAt data size) else none

/-- Default foreground color: opaque black (src/main.rs line 84). -/
def default_fg : Rgba := ⟨0, 0, 0, 255⟩

/-- Default background color: opaque white (src/main.rs line 89). -/
def default_bg : Rgba := ⟨255, 255, 255, 255⟩

/-- Embedding of the color-resolution expression
opt.as_ref().and_then(hex_to_rgba(_).ok()).unwrap_or(default): an absent
string or a parse error yields the default, a parse success yields the
parsed color, and a panic inside hex_to_rgba aborts the whole render
(modelled as none). -/
def resolve_color (s : Option (List Nat)) (dflt : Rgba) : Option Rgba :=
  match s with
  | none => some dflt
  | some bytes => match hex_to_rgba bytes with
    | HexResult.panicked => none
    | HexResult.err => some dflt
    | HexResult.ok c => some c

/-- Body of the recoloring loop (src/main.rs line 92): a pixel whose red
channel is zero becomes the foreground color, every other pixel becomes
the background color. -/
def remapPixel (fg bg : Rgba) (p : Rgba) : Rgba :=
  if p.r = 0 then fg else bg

/-- Embedding of the color stage of generate_qr_image (src/main.rs lines
80-94): when at least one color parameter is present, resolve both colors
(foreground first, as in the source) and remap every pixel; when both are
absent the stage is skipped and the image is returned untouched.  A value
of none models a panic escaping from hex_to_rgba. -/
def apply_colors (fgs bgs : Option (List Nat)) (image : Image) : Option Image :=
  if fgs.isSome || bgs.isSome then
    match resolve_color fgs default_fg with
    | none => none
    | some fg =>
      match resolve_color bgs default_bg with
      | none => none
      | some bg => some (fun x y => remapPixel fg bg (image x y))
  else some image

/-- A decoded logo image: dimensions plus pixel lookup. -/
structure LogoImage where
  width : Nat
  height : Nat
  pix : Nat → Nat → Rgba

/-- White margin around the logo backdrop, in pixels (src/main.rs
line 109). -/
def margin : Nat := 4

/-- The list of coordinates at which the backdrop loop (src/main.rs lines
110-116) calls put_pixel: y ranges over start_y.saturating_sub(margin)
up to start_y + safe_height + margin (exclusive), x likewise, and the
call happens only under the guard x < size and y < size.  Nat subtraction
is exactly u32 saturating_sub. -/
def backdrop_writes (size : Nat) : List (Nat × Nat) :=
  let zone := calculate_safe_zone size
  let sx := zone.1
  let sy := zone.2.1
  let sw := zone.2.2.1
  let sh := zone.2.2.2
  (List.range' (sy - margin) ((sy + sh + margin) - (sy - margin))).flatMap fun y =>
    (List.range' (sx - margin) ((sx + sw + margin) - (sx - margin))).filterMap fun x =>
      if x < size ∧ y < size then some (x, y) else none

/-- The list of coordinates at which the overlay loop (src/main.rs lines
119-136) calls put_pixel: for every logo pixel (x, y), the target
(start_x + x, start_y + y) is written only when it passes the bounds
guard and the pixel's alpha is positive. -/
def overlay_writes (size : Nat) (logo : LogoImage) : List (Nat × Nat) :=
  let zone := calculate_safe_zone size
  let sx := zone.1
  let sy := zone.2.1
  (List.range logo.height).flatMap fun y =>
    (List.range logo.width).filterMap fun x =>
      if (sx + x < size ∧ sy + y < size) ∧ 0 < (logo.pix x y).a then
        some (sx + x, sy + y)
      else none

/-- Effect of the backdrop loop on the pixel buffer: every guarded
coordinate of the expanded safe zone becomes opaque white; all writes
store the same value, so loop order is immaterial. -/
def paint_backdrop (size : Nat) (zone : Nat × Nat × Nat × Nat) (image : Image) : Image :=
  fun x y =>
    if zone.2.1 - margin ≤ y ∧ y < zone.2.1 + zone.2.2.2 + margin ∧
        zone.1 - margin ≤ x ∧ x < zone.1 + zone.2.2.1 + margin ∧
        x < size ∧ y < size then ⟨255, 255, 255, 255⟩
    else image x y

/-- Rust numeric cast from f32 to u8 (the as operator): truncate toward
zero and saturate into 0..255.  For the nonnegative values arising here
truncation is the floor; for negative values Int.toNat saturates at 0
exactly as the cast does.  The f32 value itself is idealized as an exact
rational. -/
def f32_as_u8 (q : ℚ) : Nat := min (Int.toNat ⌊q⌋) 255

/-- One channel of the alpha blend (src/main.rs lines 125-130):
(1 - alpha) * existing + alpha * logo with alpha = alpha_byte / 255,
computed in (idealized) f32 and cast back to u8 with the truncating
as-cast. -/
def blend_channel (alpha_byte e l : Nat) : Nat :=
  let a : ℚ := (alpha_byte : ℚ) / 255
  f32_as_u8 ((1 - a) * (e : ℚ) + a * (l : ℚ))

/-- Effect of the overlay loop (src/main.rs lines 119-136) on the pixel
buffer: a target coordinate inside the logo footprint and inside the
buffer receives the alpha blend of the logo pixel over the existing
pixel with alpha forced to 255 when the logo alpha is positive, and is
left untouched when the logo alpha is zero.  Distinct logo pixels map to
distinct targets, so the sequential loop equals this pointwise
description. -/
def overlay_logo (size : Nat) (zone : Nat × Nat × Nat × Nat) (logo : LogoImage)
    (image : Image) : Image :=
  fun tx ty =>
    if zone.1 ≤ tx ∧ tx - zone.1 < logo.width ∧ zone.2.1 ≤ ty ∧ ty - zone.2.1 < logo.height ∧
        tx < size ∧ ty < size then
      let p := logo.pix (tx - zone.1) (ty - zone.2.1)
      if 0 < p.a then
        let e := image tx ty
        ⟨blend_channel p.a e.r p.r, blend_channel p.a e.g p.g, blend_channel p.a e.b p.b, 255⟩
      else image tx ty
    else image tx ty

/-- Embedding of the QRParams query structure (src/main.rs lines 28-35).
Color strings are carried as UTF-8 byte lists because hex_to_rgba slices
them at the byte level. -/
structure QRParams where
  content : String
  size : Option Nat
  fg_color : Option (List Nat)
  bg_color : Option (List Nat)
  logo_url : Option String

/-- Embedding of the QRCacheKey structure (src/main.rs lines 15-21): the
cache fingerprint carries content, resolved size and the two color
options, and has no field for logo_url. -/
structure QRCacheKey where
  content : String
  size : Nat
  fg_color : Option (List Nat)
  bg_color : Option (List Nat)
deriving DecidableEq

/-- Cache-key construction in generate_qr (src/main.rs lines 151-159):
size defaults to 512, the other fields are cloned from the request, and
logo_url is not consulted. -/
def cache_key_of (p : QRParams) : QRCacheKey :=
  ⟨p.content, p.size.getD 512, p.fg_color, p.bg_color⟩

/-- Embedding of generate_qr_image (src/main.rs lines 70-145) up to the
final PNG serialization.  qrRaw is the black-box QR encoder output
(qr_code_to of the qrc crate) as a raw byte buffer; fetched is the
outcome of fetch_and_resize_logo, with none covering both an absent
logo_url fetch attempt that failed and a decode failure; resizedPix
gives the pixels of the black-box Lanczos resize of the fetched logo to
the safe-zone dimensions (imageops::resize returns exactly the requested
dimensions).  The result is none exactly when color parsing panics.
Nothing in the function inspects whether content is empty. -/
def generate_qr_image (qrRaw : String → Nat → List Nat) (fetched : Option LogoImage)
    (resizedPix : LogoImage → Nat → Nat → Rgba) (p : QRParams) (size : Nat) :
    Option Image :=
  let image := (from_raw size (qrRaw p.content size)).getD blankImage
  match apply_colors p.fg_color p.bg_color image with
  | none => none
  | some image2 =>
    match p.logo_url with
    | none => some image2
    | some _ =>
      match fetched with
      | none => some image2
      | some logo0 =>
        let zone := calculate_safe_zone size
        let logo : LogoImage := ⟨zone.2.2.1, zone.2.2.2, resizedPix logo0⟩
        some (overlay_logo size zone logo (paint_backdrop size zone image2))

/-- Embedding of resize_dimensions of the image crate, the arithmetic
behind DynamicImage::resize used in fetch_and_resize_logo: the scaling
ratio is the minimum of nwidth / width and nheight / height (aspect
ratio preserved), each dimension is scaled by it, rounded half away from
zero — which on these nonnegative values is exactly Mathlib round — and
clamped below by 1.  f64 is idealized as exact rational arithmetic; the
u32 overflow fallback branch of the crate is unreachable because both
results are bounded by the u32 targets nwidth and nheight. -/
def resize_dimensions (width height nwidth nheight : Nat) : Nat × Nat :=
  let scale_w : ℚ := (nwidth : ℚ) / (width : ℚ)
  let scale_h : ℚ := (nheight : ℚ) / (height : ℚ)
  let scale := min scale_w scale_h
  (max (round ((width : ℚ) * scale)).toNat 1, max (round ((height : ℚ) * scale)).toNat 1)

/-- Dimension behaviour of fetch_and_resize_logo (src/main.rs lines
37-46): the decoded logo of dimensions width by height is resized with
DynamicImage::resize to fit within a square box of side size / 4. -/
def fetch_and_resize_dims (size width height : Nat) : Nat × Nat :=
  resize_dimensions width height (size / 4) (size / 4)

/-- Bound for the blend argument: when the alpha byte and both channel
values are genuine u8 values (at most 255), the blended value is a convex
combination and stays at most 255. -/
theorem blend_arg_le {alpha_byte e l : Nat} (ha : alpha_byte ≤ 255) (he : e ≤ 255)
    (hl : l ≤ 255) :
    (1 - (alpha_byte : ℚ) / 255) * (e : ℚ) + ((alpha_byte : ℚ) / 255) * (l : ℚ) ≤ 255 := by
  have ha0 : (0 : ℚ) ≤ (alpha_byte : ℚ) / 255 := by positivity
  have ha1 : (alpha_byte : ℚ) / 255 ≤ 1 := by
    rw [div_le_one (by norm_num)]
    exact_mod_cast ha
  have he2 : (e : ℚ) ≤ 255 := by exact_mod_cast he
  have hl2 : (l : ℚ) ≤ 255 := by exact_mod_cast hl
  calc (1 - (alpha_byte : ℚ) / 255) * (e : ℚ) + ((alpha_byte : ℚ) / 255) * (l : ℚ)
      ≤ (1 - (alpha_byte : ℚ) / 255) * 255 + ((alpha_byte : ℚ) / 255) * 255 := by
        have h1 : (0 : ℚ) ≤ 1 - (alpha_byte : ℚ) / 255 := by linarith
        exact add_le_add (mul_le_mul_of_nonneg_left he2 h1) (mul_le_mul_of_nonneg_left hl2 ha0)
    _ = 255 := by ring

/-- When the blended value does not exceed 255, the saturating cast is
plain truncation. -/
theorem f32_as_u8_of_le {q : ℚ} (h : q ≤ 255) : f32_as_u8 q = Int.toNat ⌊q⌋ := by
  have h2 : ⌊q⌋ ≤ (255 : ℤ) := by
    have h3 := Int.floor_le_floor h
    simpa using h3
  unfold f32_as_u8
  omega

/-- C1: for every pair of render requests equal in content, size, fg_color
and bg_color, the cache fingerprints built by generate_qr are equal,
whatever logo_url either request carries; the key has no logo_url field. -/
theorem cache_key_ignores_logo_url (p q : QRParams)
    (hc : p.content = q.content) (hs : p.size = q.size)
    (hf : p.fg_color = q.fg_color) (hb : p.bg_color = q.bg_color) :
    cache_key_of p = cache_key_of q := by
  simp [cache_key_of, hc, hs, hf, hb]

theorem cache_key_ignores_logo_url_witness :
    cache_key_of ⟨"hello", some 256, none, none, some ("logo")⟩ =
      cache_key_of ⟨"hello", some 256, none, none, none⟩ :=
  cache_key_ignores_logo_url _ _ rfl rfl rfl rfl

/-- C2: evaluation of hex_to_rgba at the failing input, the 7-byte string
consisting of the hash byte 35, the three-byte euro-sign character 226,
130, 172 and the digits 1, 2, 3.  It passes the length and hash-sign
checks, and the byte slice hex[1..3] then panics because byte index 3
falls inside the multi-byte character, so the render fails hard instead
of falling back to the default color. -/
theorem hex_to_rgba_panics_on_multibyte :
    hex_to_rgba [35, 226, 130, 172, 49, 50, 51] = HexResult.panicked := by decide

/-- C3: every coordinate at which the logo compositing code (backdrop
painting or logo overlay) calls put_pixel lies inside the size-by-size
buffer, for every size and every logo. -/
theorem composite_writes_in_bounds (size : Nat) (logo : LogoImage) (x y : Nat)
    (h : (x, y) ∈ backdrop_writes size ∨ (x, y) ∈ overlay_writes size logo) :
    x < size ∧ y < size := by
  rcases h with h | h
  · simp only [backdrop_writes, List.mem_flatMap, List.mem_filterMap] at h
    obtain ⟨b, -, a, -, hif⟩ := h
    split at hif
    · next hcond =>
      simp only [Option.some.injEq, Prod.mk.injEq] at hif
      obtain ⟨rfl, rfl⟩ := hif
      exact hcond
    · exact absurd hif (by simp)
  · simp only [overlay_writes, List.mem_flatMap, List.mem_filterMap] at h
    obtain ⟨b, -, a, -, hif⟩ := h
    split at hif
    · next hcond =>
      simp only [Option.some.injEq, Prod.mk.injEq] at hif
      obtain ⟨rfl, rfl⟩ := hif
      exact hcond.1
    · exact absurd hif (by simp)

theorem composite_writes_in_bounds_witness : 0 < 8 ∧ 0 < 8 :=
  composite_writes_in_bounds 8 ⟨0, 0, fun _ _ => ⟨0, 0, 0, 0⟩⟩ 0 0 (Or.inl (by decide))

/-- C4: the safe zone is the pure function sending size to the centered
square of side size / 4 at position ((size - size / 4) / 2) twice, and in
particular size 512 yields the zone (192, 192, 128, 128). -/
theorem calculate_safe_zone_spec (size : Nat) :
    calculate_safe_zone size =
      ((size - size / 4) / 2, (size - size / 4) / 2, size / 4, size / 4) ∧
    calculate_safe_zone 512 = (192, 192, 128, 128) :=
  ⟨rfl, by decide⟩

/-- C5 counterexample: at alpha byte 1, existing channel 255 and logo
channel 128, the exact blend value is 64898 / 255, strictly between
254.5 and 255, so rounding to the nearest integer gives 255 while the
code's truncating cast gives 254.  The margin to the half-integer
boundary is about 2e-3, far above any f32 rounding error on these
magnitudes, so the idealization of f32 as exact rationals is conclusive
here. -/
theorem blend_truncates_not_rounds :
    blend_channel 1 255 128 = 254 ∧
    (round ((1 - (1 : ℚ) / 255) * (255 : ℚ) + ((1 : ℚ) / 255) * (128 : ℚ))).toNat = 255 ∧
    blend_channel 1 255 128 ≠
      (round ((1 - (1 : ℚ) / 255) * (255 : ℚ) + ((1 : ℚ) / 255) * (128 : ℚ))).toNat := by
  have h1 : blend_channel 1 255 128 = 254 := by
    norm_num [blend_channel, f32_as_u8]
    omega
  have h2 : (round ((1 - (1 : ℚ) / 255) * (255 : ℚ) + ((1 : ℚ) / 255) * (128 : ℚ))).toNat
      = 255 := by
    norm_num [round_eq]
    omega
  exact ⟨h1, h2, by rw [h1, h2]; decide⟩

/-- C5 as amended: a logo pixel with positive alpha composited at an
in-bounds position yields, per RGB channel, the value
(1 - a) * existing + a * logo with a the alpha byte over 255, computed
in (idealized) floating point and truncated toward zero (not rounded to
nearest), with output alpha forced to 255; a logo pixel with zero alpha
leaves the underlying pixel unchanged.  The byte-range hypotheses record
that all channels are genuine u8 values, which makes the saturating cast
a pure truncation. -/
theorem overlay_blend_spec (size sx sy sw sh : Nat) (logo : LogoImage) (img : Image)
    (x y : Nat) (_hz : calculate_safe_zone size = (sx, sy, sw, sh))
    (hx : x < logo.width) (hy : y < logo.height)
    (hbx : sx + x < size) (hby : sy + y < size)
    (ha : (logo.pix x y).a ≤ 255) (hr : (logo.pix x y).r ≤ 255)
    (hg : (logo.pix x y).g ≤ 255) (hb : (logo.pix x y).b ≤ 255)
    (her : (img (sx + x) (sy + y)).r ≤ 255)
    (heg : (img (sx + x) (sy + y)).g ≤ 255)
    (heb : (img (sx + x) (sy + y)).b ≤ 255) :
    (0 < (logo.pix x y).a →
      overlay_logo size (sx, sy, sw, sh) logo img (sx + x) (sy + y) =
        ⟨Int.toNat ⌊(1 - ((logo.pix x y).a : ℚ) / 255) * ((img (sx + x) (sy + y)).r : ℚ)
            + (((logo.pix x y).a : ℚ) / 255) * ((logo.pix x y).r : ℚ)⌋,
          Int.toNat ⌊(1 - ((logo.pix x y).a : ℚ) / 255) * ((img (sx + x) (sy + y)).g : ℚ)
            + (((logo.pix x y).a : ℚ) / 255) * ((logo.pix x y).g : ℚ)⌋,
          Int.toNat ⌊(1 - ((logo.pix x y).a : ℚ) / 255) * ((img (sx + x) (sy + y)).b : ℚ)
            + (((logo.pix x y).a : ℚ) / 255) * ((logo.pix x y).b : ℚ)⌋,
          255⟩) ∧
    ((logo.pix x y).a = 0 →
      overlay_logo size (sx, sy, sw, sh) logo img (sx + x) (sy + y) = img (sx + x) (sy + y)) := by
  have hxx : sx + x - sx = x := by omega
  have hyy : sy + y - sy = y := by omega
  have hcond : sx ≤ sx + x ∧ sx + x - sx < logo.width ∧ sy ≤ sy + y ∧
      sy + y - sy < logo.height ∧ sx + x < size ∧ sy + y < size :=
    ⟨Nat.le_add_right _ _, by omega, Nat.le_add_right _ _, by omega, hbx, hby⟩
  constructor
  · intro hpa
    simp only [overlay_logo]
    rw [if_pos hcond, hxx, hyy, if_pos hpa]
    simp only [blend_channel]
    rw [f32_as_u8_of_le (blend_arg_le ha her hr),
      f32_as_u8_of_le (blend_arg_le ha heg hg),
      f32_as_u8_of_le (blend_arg_le ha heb hb)]
  · intro hpa
    simp only [overlay_logo]
    rw [if_pos hcond, hxx, hyy, if_neg (by omega)]

/-- Concrete logo used by witnesses: a single half-transparent pixel. -/
def demoLogo : LogoImage := ⟨1, 1, fun _ _ => ⟨10, 20, 30, 128⟩⟩

/-- Concrete pixel buffer used by witnesses: uniformly light gray. -/
def demoImg : Image := fun _ _ => ⟨200, 200, 200, 255⟩

theorem overlay_blend_spec_witness :
    (0 < (demoLogo.pix 0 0).a →
      overlay_logo 512 (192, 192, 128, 128) demoLogo demoImg (192 + 0) (192 + 0) =
        ⟨Int.toNat ⌊(1 - ((demoLogo.pix 0 0).a : ℚ) / 255)
              * ((demoImg (192 + 0) (192 + 0)).r : ℚ)
            + (((demoLogo.pix 0 0).a : ℚ) / 255) * ((demoLogo.pix 0 0).r : ℚ)⌋,
          Int.toNat ⌊(1 - ((demoLogo.pix 0 0).a : ℚ) / 255)
              * ((demoImg (192 + 0) (192 + 0)).g : ℚ)
            + (((demoLogo.pix 0 0).a : ℚ) / 255) * ((demoLogo.pix 0 0).g : ℚ)⌋,
          Int.toNat ⌊(1 - ((demoLogo.pix 0 0).a : ℚ) / 255)
              * ((demoImg (192 + 0) (192 + 0)).b : ℚ)
            + (((demoLogo.pix 0 0).a : ℚ) / 255) * ((demoLogo.pix 0 0).b : ℚ)⌋,
          255⟩) ∧
    ((demoLogo.pix 0 0).a = 0 →
      overlay_logo 512 (192, 192, 128, 128) demoLogo demoImg (192 + 0) (192 + 0) =
        demoImg (192 + 0) (192 + 0)) :=
  overlay_blend_spec 512 192 192 128 128 demoLogo demoImg 0 0 (by decide) (by decide)
    (by decide) (by decide) (by decide) (by decide) (by decide) (by decide) (by decide)
    (by decide) (by decide) (by decide)

/-- C6 counterexample: a decoded 2-by-1 logo at target size 512 is
resized by DynamicImage::resize to 128 by 64, not to the claimed
128 by 128: the resize preserves the aspect ratio and only fits the
image inside the size / 4 square. -/
theorem fetch_resize_not_square :
    fetch_and_resize_dims 512 2 1 = (128, 64) ∧ (128, 64) ≠ (512 / 4, 512 / 4) := by
  refine ⟨?_, by decide⟩
  norm_num [fetch_and_resize_dims, resize_dimensions, min_def, round_eq]
  omega

/-- C6 as amended: fetch_and_resize_logo scales the decoded logo to fit
within a square box of side size / 4 preserving aspect ratio, so both
dimensions equal size / 4 exactly when the decoded image is square (and
size is at least 4, so the box side is positive). -/
theorem fetch_resize_square_dims (size w : Nat) (hw : 0 < w) (hs : 4 ≤ size) :
    fetch_and_resize_dims size w w = (size / 4, size / 4) := by
  have hw0 : (w : ℚ) ≠ 0 := Nat.cast_ne_zero.mpr (Nat.pos_iff_ne_zero.mp hw)
  have hs4 : 1 ≤ size / 4 := (Nat.one_le_div_iff (by norm_num)).mpr hs
  simp only [fetch_and_resize_dims, resize_dimensions]
  rw [min_self, mul_comm, div_mul_cancel₀ _ hw0, round_natCast, Int.toNat_natCast,
    Nat.max_eq_left hs4]

theorem fetch_resize_square_dims_witness :
    0 < 3 ∧ 4 ≤ 512 ∧ fetch_and_resize_dims 512 3 3 = (512 / 4, 512 / 4) :=
  ⟨by decide, by decide, fetch_resize_square_dims 512 3 (by decide) (by decide)⟩

/-- C7 counterexample: a request whose content is the empty string is not
rejected; generate_qr_image runs the composition pipeline on it and
returns an image (here with a concrete QR-encoder oracle returning an
empty byte buffer, no logo, and size 16). -/
theorem empty_content_composes :
    (generate_qr_image (fun _ _ => []) none (fun _ _ _ => ⟨0, 0, 0, 0⟩)
        ⟨"", some 16, none, none, none⟩ 16).isSome = true := rfl

/-- C7 as amended: the core does not treat empty content specially in any
way: whenever the black-box QR encoder is fed the empty string and some
other content at the same size and produces the same raw buffer, the
whole composition pipeline produces the same result, so no rejection of
empty content exists before or during composition. -/
theorem empty_content_treated_uniformly (qrRaw : String → Nat → List Nat)
    (fetched : Option LogoImage) (resizedPix : LogoImage → Nat → Nat → Rgba)
    (sz : Option Nat) (fg bg : Option (List Nat)) (url : Option String)
    (size : Nat) (c : String) (h : qrRaw ("") size = qrRaw c size) :
    generate_qr_image qrRaw fetched resizedPix ⟨"", sz, fg, bg, url⟩ size =
      generate_qr_image qrRaw fetched resizedPix ⟨c, sz, fg, bg, url⟩ size := by
  simp only [generate_qr_image, h]

theorem empty_content_treated_uniformly_witness :
    generate_qr_image (fun _ _ => []) none (fun _ _ _ => ⟨0, 0, 0, 0⟩)
        ⟨"", some 16, none, none, none⟩ 16 =
      generate_qr_image (fun _ _ => []) none (fun _ _ _ => ⟨0, 0, 0, 0⟩)
        ⟨"qr", some 16, none, none, none⟩ 16 :=
  empty_content_treated_uniformly (fun _ _ => []) none (fun _ _ _ => ⟨0, 0, 0, 0⟩)
    (some 16) none none none 16 ("qr") rfl

/-- C8 counterexample: a raw encoder buffer of 5 bytes for size 1 has
length different from 1 * 1 * 4, yet from_raw accepts it (the image
crate only requires the buffer to be at least the minimal length), and
the composition proceeds on the encoder bytes, not on a blank
transparent image: pixel (0, 0) is (7, 7, 7, 7), not (0, 0, 0, 0). -/
theorem from_raw_oversized_not_blanked :
    List.length [7, 7, 7, 7, 9] ≠ image_buffer_len 1 ∧
    ((from_raw 1 [7, 7, 7, 7, 9]).getD blankImage) 0 0 ≠ blankImage 0 0 := by
  exact ⟨by decide, by decide⟩

/-- C8 as amended: only when the raw encoder buffer is strictly shorter
than size * size * 4 is it silently replaced by the newly allocated
all-zero transparent buffer; a buffer of that length or longer is used
as the pixel source. -/
theorem from_raw_short_fallback (size : Nat) (data : List Nat)
    (h : data.length < image_buffer_len size) :
    (from_raw size data).getD blankImage = blankImage := by
  rw [from_raw, if_neg (Nat.not_le.mpr h)]
  rfl

theorem from_raw_short_fallback_witness :
    List.length ([] : List Nat) < image_buffer_len 1 ∧
    (from_raw 1 ([] : List Nat)).getD blankImage = blankImage :=
  ⟨by decide, from_raw_short_fallback 1 [] (by decide)⟩

/-- C9: when neither fg_color nor bg_color is provided, the recoloring
stage is skipped and returns the buffer unchanged, and (for a logo-free
request) the image handed to the encoding stage is exactly the raw
encoder bitmap, with no pixel rewritten to a default color. -/
theorem color_stage_skipped_without_colors (qrRaw : String → Nat → List Nat)
    (fetched : Option LogoImage) (resizedPix : LogoImage → Nat → Nat → Rgba)
    (c : String) (sz : Option Nat) (size : Nat) (image : Image) :
    apply_colors none none image = some image ∧
    generate_qr_image qrRaw fetched resizedPix ⟨c, sz, none, none, none⟩ size =
      some ((from_raw size (qrRaw c size)).getD blankImage) :=
  ⟨rfl, rfl⟩

/-- C10: during color remapping a pixel is classified as an on module
exactly when its red channel is zero — the green, blue and alpha
channels are never consulted — and every other pixel receives the
background color; the remapping stage rewrites every pixel with exactly
this rule. -/
theorem remap_depends_only_on_red (fgs bgs : Option (List Nat)) (fg bg : Rgba)
    (image : Image) (x y : Nat)
    (hsome : fgs.isSome = true ∨ bgs.isSome = true)
    (hfg : resolve_color fgs default_fg = some fg)
    (hbg : resolve_color bgs default_bg = some bg) :
    apply_colors fgs bgs image = some (fun u v => remapPixel fg bg (image u v)) ∧
    remapPixel fg bg (image x y) = (if (image x y).r = 0 then fg else bg) ∧
    (∀ g2 b2 a2, remapPixel fg bg ⟨(image x y).r, g2, b2, a2⟩ =
      remapPixel fg bg (image x y)) := by
  have hc : (fgs.isSome || bgs.isSome) = true := by
    rcases hsome with h | h <;> simp [h]
  refine ⟨?_, rfl, fun _ _ _ => rfl⟩
  simp only [apply_colors, hc, if_true, hfg, hbg]

theorem remap_depends_only_on_red_witness :
    apply_colors (some [35, 70, 70, 48, 48, 48, 48]) none demoImg =
      some (fun u v => remapPixel ⟨255, 0, 0, 255⟩ default_bg (demoImg u v)) ∧
    remapPixel ⟨255, 0, 0, 255⟩ default_bg (demoImg 0 0) =
      (if (demoImg 0 0).r = 0 then ⟨255, 0, 0, 255⟩ else default_bg) ∧
    (∀ g2 b2 a2, remapPixel ⟨255, 0, 0, 255⟩ default_bg ⟨(demoImg 0 0).r, g2, b2, a2⟩ =
      remapPixel ⟨255, 0, 0, 255⟩ default_bg (demoImg 0 0)) :=
  remap_depends_only_on_red (some [35, 70, 70, 48, 48, 48, 48]) none ⟨255, 0, 0, 255⟩
    default_bg demoImg 0 0 (Or.inl rfl) (by decide) rfl

end QRGen
